import Mathlib

/-!
Shallow embedding of the go-mlflow experiment client.

The embedding follows the Go source file by file:

* `Tag`, `Tags` and the operations `Tags.Contains`, `Tags.Get`, `Tags.Set`
  embed the tag list (experiment.go).  Go slices become Lean lists.
* `Experiment` embeds the resource struct; the mutating Go methods become
  functions returning the updated value.  `Experiment.DeepCopyVal` is the
  value level content of `DeepCopyInto` (the fields written into the
  destination).  A separate heap model (`TagStore`, `ExperimentH`) embeds
  the slice aliasing that the deep copy independence claim is about.
* The client operations `CreateExperiment`, `GetExperiment` and
  `DeleteExperiment` (client.go) become functions from the input
  experiment, the option list and the HTTP response to a triple of the
  issued request (`none` when validation fails before any network call),
  the returned result and the final state of the caller experiment.
  Decoded JSON payloads are `Option` values: `none` models a body that
  fails to decode.
-/

/-- A Tag is a key-value pair associated with an experiment. -/
structure Tag where
  key : String
  value : String
deriving DecidableEq, Repr

/-- Tags is a list of Tag objects. -/
abbrev Tags := List Tag

/-- Embeds Tags.Contains: linear scan for a matching key. -/
def Tags.Contains : List Tag → String → Bool
  | [], _ => false
  | tag :: rest, key => if tag.key = key then true else Tags.Contains rest key

/-- Embeds Tags.Get: value of the first Tag with the given key, else the
empty string. -/
def Tags.Get : List Tag → String → String
  | [], _ => ""
  | tag :: rest, key => if tag.key = key then tag.value else Tags.Get rest key

/-- Embeds Tags.Set: overwrite the value of the first Tag whose key matches
(keeping its stored key), else append a new Tag at the end. -/
def Tags.Set : List Tag → String → String → List Tag
  | [], key, value => [⟨key, value⟩]
  | tag :: rest, key, value =>
    if tag.key = key then ⟨tag.key, value⟩ :: rest
    else tag :: Tags.Set rest key value

/-- Embeds the Experiment struct.  LifecycleStage is a Go string type, so it
is a String here.  The Go int64 timestamps become Int. -/
structure Experiment where
  ExperimentID : String
  Name : String
  ArtifactLocation : String
  CreationTime : Int
  LastUpdatedTime : Int
  LifecycleStage : String
  Tags : List Tag
deriving DecidableEq, Repr

/-- The zero value of the Experiment struct. -/
def Experiment.zero : Experiment :=
  ⟨"", "", "", 0, 0, "", []⟩

/-- Value content of Experiment.DeepCopyInto: every scalar field is copied
and the tag list is rebuilt element by element. -/
def Experiment.DeepCopyVal (e : Experiment) : Experiment :=
  { e with Tags := e.Tags.map (fun t => Tag.mk t.key t.value) }

/-- Embeds the Go time.Time values this client produces: seconds since the
Unix epoch plus a nanosecond part (always in the interval from 0 to 10^9 in
a normalized Go time value). -/
structure GoTime where
  sec : Int
  nsec : Int
deriving DecidableEq, Repr

/-- Embeds the Unix method of time.Time: the whole seconds since epoch. -/
def GoTime.Unix (t : GoTime) : Int := t.sec

/-- Embeds the call time.Unix(sec, 0) as used by the timestamp getters. -/
def timeUnixSec (sec : Int) : GoTime := ⟨sec, 0⟩

/-- Embeds Experiment.GetCreationTimestamp. -/
def Experiment.GetCreationTimestamp (e : Experiment) : GoTime :=
  timeUnixSec e.CreationTime

/-- Embeds Experiment.SetCreationTimestamp. -/
def Experiment.SetCreationTimestamp (e : Experiment) (t : GoTime) : Experiment :=
  { e with CreationTime := GoTime.Unix t }

/-- Embeds Experiment.GetLastUpdatedTimestamp. -/
def Experiment.GetLastUpdatedTimestamp (e : Experiment) : GoTime :=
  timeUnixSec e.LastUpdatedTime

/-- Embeds Experiment.SetLastUpdatedTimestamp. -/
def Experiment.SetLastUpdatedTimestamp (e : Experiment) (t : GoTime) : Experiment :=
  { e with LastUpdatedTime := GoTime.Unix t }

/-- Embeds the CreateOptions struct. -/
structure CreateOptions where
  Namespace : String
deriving DecidableEq, Repr

/-- Embeds the GetOptions struct. -/
structure GetOptions where
  Namespace : String
deriving DecidableEq, Repr

/-- Embeds the DeleteOptions struct. -/
structure DeleteOptions where
  IgnoreMissing : Bool
  Namespace : String
deriving DecidableEq, Repr

/-- The implementors of the CreateOption interface: only InNamespace. -/
inductive CreateOption where
  | InNamespace (ns : String)
deriving DecidableEq, Repr

/-- The implementors of the GetOption interface: only InNamespace. -/
inductive GetOption where
  | InNamespace (ns : String)
deriving DecidableEq, Repr

/-- The implementors of the DeleteOption interface: InNamespace and
IgnoreMissing. -/
inductive DeleteOption where
  | InNamespace (ns : String)
  | IgnoreMissing (b : Bool)
deriving DecidableEq, Repr

/-- Embeds InNamespace.ApplyToCreate: sets the Namespace field. -/
def CreateOption.ApplyToCreate : CreateOption → CreateOptions → CreateOptions
  | .InNamespace ns, o => { o with Namespace := ns }

/-- Embeds InNamespace.ApplyToGet: sets the Namespace field. -/
def GetOption.ApplyToGet : GetOption → GetOptions → GetOptions
  | .InNamespace ns, o => { o with Namespace := ns }

/-- Embeds the ApplyToDelete methods: InNamespace.ApplyToDelete has an empty
body, IgnoreMissing.ApplyToDelete sets the IgnoreMissing field. -/
def DeleteOption.ApplyToDelete : DeleteOption → DeleteOptions → DeleteOptions
  | .InNamespace _, o => o
  | .IgnoreMissing b, o => { o with IgnoreMissing := b }

/-- Embeds the option loop of CreateExperiment plus the default: fold the
options over the zero CreateOptions, then replace an empty Namespace by
"default". -/
def resolveCreateOptions (opts : List CreateOption) : CreateOptions :=
  let o := opts.foldl (fun o f => CreateOption.ApplyToCreate f o) ⟨""⟩
  if o.Namespace = "" then { o with Namespace := "default" } else o

/-- Embeds the option loop of GetExperiment plus the default namespace. -/
def resolveGetOptions (opts : List GetOption) : GetOptions :=
  let o := opts.foldl (fun o f => GetOption.ApplyToGet f o) ⟨""⟩
  if o.Namespace = "" then { o with Namespace := "default" } else o

/-- Embeds the option loop of DeleteExperiment plus the default namespace. -/
def resolveDeleteOptions (opts : List DeleteOption) : DeleteOptions :=
  let o := opts.foldl (fun o f => DeleteOption.ApplyToDelete f o) ⟨false, ""⟩
  if o.Namespace = "" then { o with Namespace := "default" } else o

/-- The error values the client returns: a validation error raised before
any network call, a protocol error carrying the status code and the raw
response body, or a JSON decode failure. -/
inductive ClientError where
  | validation (msg : String)
  | protocol (status : Nat) (body : String)
  | decodeFailure
deriving DecidableEq, Repr

/-- The JSON body POSTed to the create endpoint. -/
structure CreateRequest where
  name : String
  artifact_location : String
  tags : List Tag
deriving DecidableEq, Repr

/-- The query of the GET request to the get endpoint. -/
structure GetRequest where
  experiment_id : String
deriving DecidableEq, Repr

/-- The JSON body POSTed to the delete endpoint. -/
structure DeleteRequest where
  experiment_id : String
deriving DecidableEq, Repr

/-- The response to the create request: status code, raw body text, and the
decoded experiment_id field (`none` when the body fails to decode). -/
structure CreateResponse where
  status : Nat
  rawBody : String
  experimentID : Option String
deriving DecidableEq, Repr

/-- The response to the get request: status code, raw body text, and the
decoded experiment (`none` when the body fails to decode). -/
structure GetResponse where
  status : Nat
  rawBody : String
  experiment : Option Experiment
deriving DecidableEq, Repr

/-- The response to the delete request: status code and raw body text (the
delete path never decodes the body). -/
structure DeleteResponse where
  status : Nat
  rawBody : String
deriving DecidableEq, Repr

/-- Embeds strings.TrimPrefix: drop the leading pattern when present, else
return the string unchanged. -/
def trimPre (s p : String) : String :=
  if p.data.isPrefixOf s.data then String.mk (s.data.drop p.data.length) else s

/-- Embeds the body construction of CreateExperiment: the wire name is the
namespace, a slash, and the experiment name; the artifact location is passed
through; the tags are the experiment tags with the reserved namespace tag
upserted. -/
def createRequestBody (experiment : Experiment) (ns : String) : CreateRequest :=
  ⟨ns ++ "/" ++ experiment.Name,
   experiment.ArtifactLocation,
   Tags.Set experiment.Tags "metadata.namespace" ns⟩

/-- Embeds client.GetExperiment as a function of the input experiment, the
options and the HTTP response.  Returns the issued request (`none` when
validation fails), the result, and the final caller experiment. -/
def GetExperiment (experiment : Experiment) (opts : List GetOption)
    (resp : GetResponse) :
    Option GetRequest × Except ClientError Unit × Experiment :=
  if experiment.ExperimentID = "" then
    (none, .error (.validation "ExperimentID must be set"), experiment)
  else
    let _o := resolveGetOptions opts
    let req : GetRequest := ⟨experiment.ExperimentID⟩
    if resp.status ≠ 200 then
      (some req, .error (.protocol resp.status resp.rawBody), experiment)
    else
      match resp.experiment with
      | none => (some req, .error .decodeFailure, experiment)
      | some out =>
        let e := Experiment.DeepCopyVal out
        let ns := Tags.Get e.Tags "metadata.namespace"
        let e := if ns ≠ "" then { e with Name := trimPre e.Name (ns ++ "/") } else e
        (some req, .ok (), e)

/-- Caller-visible effect of the tag upsert in CreateExperiment.  The Go
request struct receives the caller slice header, so the upsert writes
through the shared backing array: when the reserved key is already present
its first occurrence is overwritten in place and the caller sees the new
value; when it is absent the append touches only the local request slice
and the caller sees no change. -/
def callerTagsAfterUpsert (experiment : Experiment) (ns : String) : Experiment :=
  if Tags.Contains experiment.Tags "metadata.namespace" = true then
    { experiment with Tags := Tags.Set experiment.Tags "metadata.namespace" ns }
  else experiment

/-- Embeds client.CreateExperiment.  The create round trip and the follow-up
get round trip each take their HTTP response as a parameter.  Returns the
issued create request, the issued get request, the result, and the final
caller experiment.  The tag upsert that builds the request body mutates the
caller experiment through the shared slice (see `callerTagsAfterUpsert`),
so every path after it carries the mutated caller state. -/
def CreateExperiment (experiment : Experiment) (opts : List CreateOption)
    (cresp : CreateResponse) (gresp : GetResponse) :
    Option CreateRequest × Option GetRequest × Except ClientError Unit × Experiment :=
  if experiment.Name = "" then
    (none, none,
     .error (.validation "missing required attribute \"Name\" on experiment"),
     experiment)
  else
    let o := resolveCreateOptions opts
    let req := createRequestBody experiment o.Namespace
    let experiment := callerTagsAfterUpsert experiment o.Namespace
    if cresp.status ≠ 200 then
      (some req, none, .error (.protocol cresp.status cresp.rawBody), experiment)
    else
      match cresp.experimentID with
      | none => (some req, none, .error .decodeFailure, experiment)
      | some id =>
        let exp1 := { experiment with ExperimentID := id }
        let r := GetExperiment exp1 [GetOption.InNamespace o.Namespace] gresp
        (some req, r.1, r.2.1, r.2.2)

/-- Embeds client.DeleteExperiment.  On 200, and on 404 with IgnoreMissing,
the zero experiment is deep-copied into the caller experiment; any other
status is a protocol error and leaves the caller experiment unchanged. -/
def DeleteExperiment (experiment : Experiment) (opts : List DeleteOption)
    (resp : DeleteResponse) :
    Option DeleteRequest × Except ClientError Unit × Experiment :=
  if experiment.ExperimentID = "" then
    (none, .error (.validation "ExperimentID must be set"), experiment)
  else
    let o := resolveDeleteOptions opts
    let req : DeleteRequest := ⟨experiment.ExperimentID⟩
    if resp.status = 200 then
      (some req, .ok (), Experiment.DeepCopyVal Experiment.zero)
    else if resp.status = 404 ∧ o.IgnoreMissing = true then
      (some req, .ok (), Experiment.DeepCopyVal Experiment.zero)
    else
      (some req, .error (.protocol resp.status resp.rawBody), experiment)

/-- Heap of tag slices: the Tags field of an `ExperimentH` is an index into
this heap, modelling the Go slice header that DeepCopyInto replaces with a
freshly allocated one. -/
structure TagStore where
  heap : List (List Tag)
deriving DecidableEq, Repr

/-- Dereference a tag slice. -/
def TagStore.read (s : TagStore) (r : Nat) : List Tag := s.heap.getD r []

/-- Allocate a fresh tag slice, returning the new store and its address. -/
def TagStore.alloc (s : TagStore) (v : List Tag) : TagStore × Nat :=
  (⟨s.heap ++ [v]⟩, s.heap.length)

/-- In-place Tags.Set through a slice reference. -/
def TagStore.writeTag (s : TagStore) (r : Nat) (k v : String) : TagStore :=
  ⟨s.heap.set r (Tags.Set (TagStore.read s r) k v)⟩

/-- Experiment whose Tags field is a reference into a `TagStore`. -/
structure ExperimentH where
  ExperimentID : String
  Name : String
  ArtifactLocation : String
  CreationTime : Int
  LastUpdatedTime : Int
  LifecycleStage : String
  TagsRef : Nat
deriving DecidableEq, Repr

/-- Embeds Experiment.DeepCopy over the heap model: copy every scalar field,
allocate a fresh slice holding an element-wise copy of the tags, and point
the copy at it. -/
def ExperimentH.DeepCopy (s : TagStore) (e : ExperimentH) :
    TagStore × ExperimentH :=
  let copied := (TagStore.read s e.TagsRef).map (fun t => Tag.mk t.key t.value)
  let p := TagStore.alloc s copied
  (p.1, { e with TagsRef := p.2 })

/-! Helper lemmas about the tag list operations and the deep copy. -/

/-- Copying a tag list element by element reproduces the list. -/
theorem tags_copy_id (l : List Tag) : l.map (fun t => Tag.mk t.key t.value) = l := by
  induction l with
  | nil => rfl
  | cons t rest ih => cases t; simp [ih]

/-- At the level of field values, DeepCopyInto writes exactly the source
experiment. -/
theorem deepCopyVal_id (e : Experiment) : Experiment.DeepCopyVal e = e := by
  cases e
  simp [Experiment.DeepCopyVal, tags_copy_id]

/-- After an upsert, the first tag with the upserted key holds the new
value. -/
theorem tags_get_set (l : List Tag) (k v : String) :
    Tags.Get (Tags.Set l k v) k = v := by
  induction l with
  | nil => simp [Tags.Set, Tags.Get]
  | cons t rest ih =>
    by_cases hk : t.key = k
    · simp [Tags.Set, Tags.Get, hk]
    · simp [Tags.Set, Tags.Get, hk, ih]

/-- When the key is absent, Set appends the new tag at the end. -/
theorem tags_set_of_not_contains (l : List Tag) (k v : String)
    (h : Tags.Contains l k = false) : Tags.Set l k v = l ++ [⟨k, v⟩] := by
  induction l with
  | nil => rfl
  | cons t rest ih =>
    by_cases hk : t.key = k
    · simp [Tags.Contains, hk] at h
    · simp [Tags.Contains, hk] at h
      simp [Tags.Set, hk, ih h]

/-- When the key is present, Set keeps the length of the list. -/
theorem tags_set_length_of_contains (l : List Tag) (k v : String)
    (h : Tags.Contains l k = true) : (Tags.Set l k v).length = l.length := by
  induction l with
  | nil => simp [Tags.Contains] at h
  | cons t rest ih =>
    by_cases hk : t.key = k
    · simp [Tags.Set, hk]
    · simp [Tags.Contains, hk] at h
      simp [Tags.Set, hk, ih h]

/-- Set does not touch the tags whose key differs from the upserted key. -/
theorem tags_set_filter_ne (l : List Tag) (k v : String) :
    (Tags.Set l k v).filter (fun t => decide (t.key ≠ k)) =
      l.filter (fun t => decide (t.key ≠ k)) := by
  induction l with
  | nil => simp [Tags.Set]
  | cons t rest ih =>
    by_cases hk : t.key = k
    · simp [Tags.Set, List.filter, hk]
    · have ih2 : List.filter (fun t => !decide (t.key = k)) (Tags.Set rest k v) =
          List.filter (fun t => !decide (t.key = k)) rest := by simpa using ih
      simp [Tags.Set, List.filter, hk, ih2]

/-- The number of tags carrying the upserted key after a Set: one when the
key was absent, unchanged otherwise. -/
theorem tags_countP_set (l : List Tag) (k v : String) :
    (Tags.Set l k v).countP (fun t => decide (t.key = k)) =
      max (l.countP (fun t => decide (t.key = k))) 1 := by
  induction l with
  | nil => simp [Tags.Set]
  | cons t rest ih =>
    by_cases hk : t.key = k
    · simp [Tags.Set, hk, List.countP_cons]
    · simp [Tags.Set, hk, List.countP_cons, ih]

/-! Claim theorems about the tag list, the deep copy and the timestamps. -/

/-- C6 counterexample: on a tag list that already carries two tags with key
k (buildable by direct append, which Set never does), Set k v1 followed by
Set k v2 leaves two tags with key k, not exactly one: Set only replaces the
first match. -/
theorem tags_set_set_unique_counterexample :
    ¬ ((Tags.Set (Tags.Set [⟨"k", "a"⟩, ⟨"k", "b"⟩] "k" "v1") "k" "v2").countP
        (fun t => decide (t.key = "k")) = 1) := by decide

/-- C6 (amended): on every Tags sequence in which at most one Tag carries
key k, calling Set k v1 then Set k v2 leaves exactly one Tag with key k and
its value is v2. -/
theorem tags_set_set_unique (l : List Tag) (k v1 v2 : String)
    (h : l.countP (fun t => decide (t.key = k)) ≤ 1) :
    (Tags.Set (Tags.Set l k v1) k v2).countP (fun t => decide (t.key = k)) = 1 ∧
    Tags.Get (Tags.Set (Tags.Set l k v1) k v2) k = v2 := by
  constructor
  · rw [tags_countP_set, tags_countP_set]
    omega
  · exact tags_get_set _ k v2

/-- C6 witness: the amended claim evaluated on a concrete one-element list
without the key. -/
theorem tags_set_set_unique_witness :
    (Tags.Set (Tags.Set [⟨"a", "x"⟩] "k" "v1") "k" "v2").countP
        (fun t => decide (t.key = "k")) = 1 ∧
    Tags.Get (Tags.Set (Tags.Set [⟨"a", "x"⟩] "k" "v1") "k" "v2") "k" = "v2" :=
  tags_set_set_unique [⟨"a", "x"⟩] "k" "v1" "v2" (by decide)

/-- C9: Set k v leaves every tag with a different key unchanged in key,
value and relative order; when some tag carries k the length is unchanged;
when none does, the result is the input with the new tag appended at the
end. -/
theorem tags_set_frame (l : List Tag) (k v : String) :
    (Tags.Set l k v).filter (fun t => decide (t.key ≠ k)) =
      l.filter (fun t => decide (t.key ≠ k)) ∧
    (Tags.Contains l k = true → (Tags.Set l k v).length = l.length) ∧
    (Tags.Contains l k = false → Tags.Set l k v = l ++ [⟨k, v⟩]) :=
  ⟨tags_set_filter_ne l k v,
   fun h => tags_set_length_of_contains l k v h,
   fun h => tags_set_of_not_contains l k v h⟩

/-- C9 witness: both hypotheses discharged on concrete lists, one with the
key present and one with it absent. -/
theorem tags_set_frame_witness :
    (Tags.Set [⟨"k", "a"⟩] "k" "v").length = ([⟨"k", "a"⟩] : List Tag).length ∧
    Tags.Set [⟨"x", "a"⟩] "k" "v" = [⟨"x", "a"⟩] ++ [⟨"k", "v"⟩] :=
  ⟨(tags_set_frame [⟨"k", "a"⟩] "k" "v").2.1 (by decide),
   (tags_set_frame [⟨"x", "a"⟩] "k" "v").2.2 (by decide)⟩

/-- C8: the stored integer timestamps are seconds since the Unix epoch:
setting a creation or last-updated timestamp and reading it back yields the
time truncated to whole seconds, with an equal Unix value. -/
theorem timestamp_seconds_roundtrip (e : Experiment) (t : GoTime) :
    Experiment.GetCreationTimestamp (Experiment.SetCreationTimestamp e t) =
      ⟨GoTime.Unix t, 0⟩ ∧
    GoTime.Unix (Experiment.GetCreationTimestamp (Experiment.SetCreationTimestamp e t)) =
      GoTime.Unix t ∧
    Experiment.GetLastUpdatedTimestamp (Experiment.SetLastUpdatedTimestamp e t) =
      ⟨GoTime.Unix t, 0⟩ ∧
    GoTime.Unix
        (Experiment.GetLastUpdatedTimestamp (Experiment.SetLastUpdatedTimestamp e t)) =
      GoTime.Unix t :=
  ⟨rfl, rfl, rfl, rfl⟩

/-- C7: DeepCopy yields a full duplicate (scalar fields equal and the tag
list equal element-wise) whose tag slice is independently owned: an upsert
through the copy leaves the original tag slice untouched. -/
theorem deepCopy_independent (s : TagStore) (e : ExperimentH) (k v : String)
    (href : e.TagsRef < s.heap.length)
    (_hne : TagStore.read s e.TagsRef ≠ []) :
    ((ExperimentH.DeepCopy s e).2.ExperimentID = e.ExperimentID ∧
     (ExperimentH.DeepCopy s e).2.Name = e.Name ∧
     (ExperimentH.DeepCopy s e).2.ArtifactLocation = e.ArtifactLocation ∧
     (ExperimentH.DeepCopy s e).2.CreationTime = e.CreationTime ∧
     (ExperimentH.DeepCopy s e).2.LastUpdatedTime = e.LastUpdatedTime ∧
     (ExperimentH.DeepCopy s e).2.LifecycleStage = e.LifecycleStage) ∧
    TagStore.read (ExperimentH.DeepCopy s e).1 (ExperimentH.DeepCopy s e).2.TagsRef =
      TagStore.read s e.TagsRef ∧
    TagStore.read
        (TagStore.writeTag (ExperimentH.DeepCopy s e).1
          (ExperimentH.DeepCopy s e).2.TagsRef k v)
        e.TagsRef =
      TagStore.read s e.TagsRef := by
  have hcopy : (ExperimentH.DeepCopy s e).1.heap =
      s.heap ++ [TagStore.read s e.TagsRef] := by
    simp [ExperimentH.DeepCopy, TagStore.alloc, tags_copy_id]
  have hr : (ExperimentH.DeepCopy s e).2.TagsRef = s.heap.length := by
    simp [ExperimentH.DeepCopy, TagStore.alloc]
  have hne' : e.TagsRef ≠ s.heap.length := Nat.ne_of_lt href
  refine ⟨⟨rfl, rfl, rfl, rfl, rfl, rfl⟩, ?_, ?_⟩
  · rw [TagStore.read, hcopy, hr]
    simp [List.getD_eq_getElem?_getD, List.getElem?_concat_length]
  · rw [TagStore.writeTag, hr]
    conv_lhs => rw [TagStore.read]
    simp only [hcopy]
    rw [List.getD_eq_getElem?_getD,
      List.getElem?_set_ne (Ne.symm hne'),
      List.getElem?_append_left href]
    rw [TagStore.read, List.getD_eq_getElem?_getD]

/-- C7 witness: the independence property evaluated on a one-slice store. -/
theorem deepCopy_independent_witness :
    TagStore.read
        (TagStore.writeTag
          (ExperimentH.DeepCopy ⟨[[⟨"a", "1"⟩]]⟩ ⟨"i", "n", "l", 1, 2, "active", 0⟩).1
          (ExperimentH.DeepCopy ⟨[[⟨"a", "1"⟩]]⟩ ⟨"i", "n", "l", 1, 2, "active", 0⟩).2.TagsRef
          "a" "2")
        (0 : Nat) =
      TagStore.read ⟨[[⟨"a", "1"⟩]]⟩ (0 : Nat) :=
  (deepCopy_independent ⟨[[⟨"a", "1"⟩]]⟩ ⟨"i", "n", "l", 1, 2, "active", 0⟩ "a" "2"
    (by decide) (by decide)).2.2

/-! Claim theorems about the client operations. -/

/-- Congruence of DeleteExperiment in the resolved options. -/
theorem deleteExperiment_resolve_congr (exp : Experiment) (resp : DeleteResponse)
    (opts opts' : List DeleteOption)
    (h : resolveDeleteOptions opts = resolveDeleteOptions opts') :
    DeleteExperiment exp opts resp = DeleteExperiment exp opts' resp := by
  unfold DeleteExperiment
  rw [h]

/-- C1: with a non-empty ExperimentID, DeleteExperiment succeeds and resets
the caller experiment to the zero value on status 200, and on status 404
when the resolved IgnoreMissing option is true; every other status yields a
protocol error and leaves the caller experiment unchanged. -/
theorem deleteExperiment_spec (exp : Experiment) (opts : List DeleteOption)
    (resp : DeleteResponse) (h : exp.ExperimentID ≠ "") :
    (resp.status = 200 →
      DeleteExperiment exp opts resp =
        (some ⟨exp.ExperimentID⟩, .ok (), Experiment.zero)) ∧
    (resp.status = 404 → (resolveDeleteOptions opts).IgnoreMissing = true →
      DeleteExperiment exp opts resp =
        (some ⟨exp.ExperimentID⟩, .ok (), Experiment.zero)) ∧
    (resp.status ≠ 200 →
      ¬(resp.status = 404 ∧ (resolveDeleteOptions opts).IgnoreMissing = true) →
      DeleteExperiment exp opts resp =
        (some ⟨exp.ExperimentID⟩, .error (.protocol resp.status resp.rawBody), exp)) := by
  refine ⟨?_, ?_, ?_⟩
  · intro h200
    simp [DeleteExperiment, h, h200, deepCopyVal_id]
  · intro h404 hig
    simp [DeleteExperiment, h, h404, hig, deepCopyVal_id]
  · intro hn200 hnig
    simp [DeleteExperiment, h, hn200, hnig]

/-- C1 witness: the three branches evaluated on a concrete experiment, at
statuses 200, 404 with IgnoreMissing, and 500. -/
theorem deleteExperiment_spec_witness :
    DeleteExperiment ⟨"7", "n", "", 0, 0, "", [⟨"k", "v"⟩]⟩ [] ⟨200, ""⟩ =
      (some ⟨"7"⟩, .ok (), Experiment.zero) ∧
    DeleteExperiment ⟨"7", "n", "", 0, 0, "", [⟨"k", "v"⟩]⟩
        [DeleteOption.IgnoreMissing true] ⟨404, ""⟩ =
      (some ⟨"7"⟩, .ok (), Experiment.zero) ∧
    DeleteExperiment ⟨"7", "n", "", 0, 0, "", [⟨"k", "v"⟩]⟩ [] ⟨500, "boom"⟩ =
      (some ⟨"7"⟩, .error (.protocol 500 "boom"),
       ⟨"7", "n", "", 0, 0, "", [⟨"k", "v"⟩]⟩) :=
  ⟨(deleteExperiment_spec ⟨"7", "n", "", 0, 0, "", [⟨"k", "v"⟩]⟩ [] ⟨200, ""⟩
      (by decide)).1 rfl,
   (deleteExperiment_spec ⟨"7", "n", "", 0, 0, "", [⟨"k", "v"⟩]⟩
      [DeleteOption.IgnoreMissing true] ⟨404, ""⟩ (by decide)).2.1 rfl (by decide),
   (deleteExperiment_spec ⟨"7", "n", "", 0, 0, "", [⟨"k", "v"⟩]⟩ [] ⟨500, "boom"⟩
      (by decide)).2.2 (by decide) (by decide)⟩

/-- C2: an empty Name on Create, and an empty ExperimentID on Get or
Delete, produce a validation error with no request issued and the caller
experiment unchanged. -/
theorem validation_before_network (exp : Experiment)
    (copts : List CreateOption) (gopts : List GetOption) (dopts : List DeleteOption)
    (cresp : CreateResponse) (gresp : GetResponse) (dresp : DeleteResponse) :
    (exp.Name = "" →
      CreateExperiment exp copts cresp gresp =
        (none, none,
         .error (.validation "missing required attribute \"Name\" on experiment"),
         exp)) ∧
    (exp.ExperimentID = "" →
      GetExperiment exp gopts gresp =
        (none, .error (.validation "ExperimentID must be set"), exp)) ∧
    (exp.ExperimentID = "" →
      DeleteExperiment exp dopts dresp =
        (none, .error (.validation "ExperimentID must be set"), exp)) := by
  refine ⟨fun h => ?_, fun h => ?_, fun h => ?_⟩
  · simp [CreateExperiment, h]
  · simp [GetExperiment, h]
  · simp [DeleteExperiment, h]

/-- C2 witness: all three validation branches evaluated on the zero
experiment. -/
theorem validation_before_network_witness :
    CreateExperiment Experiment.zero [] ⟨200, "", some "1"⟩ ⟨200, "", none⟩ =
      (none, none,
       .error (.validation "missing required attribute \"Name\" on experiment"),
       Experiment.zero) ∧
    GetExperiment Experiment.zero [] ⟨200, "", none⟩ =
      (none, .error (.validation "ExperimentID must be set"), Experiment.zero) ∧
    DeleteExperiment Experiment.zero [] ⟨200, ""⟩ =
      (none, .error (.validation "ExperimentID must be set"), Experiment.zero) :=
  ⟨(validation_before_network Experiment.zero [] [] [] ⟨200, "", some "1"⟩
      ⟨200, "", none⟩ ⟨200, ""⟩).1 rfl,
   (validation_before_network Experiment.zero [] [] [] ⟨200, "", some "1"⟩
      ⟨200, "", none⟩ ⟨200, ""⟩).2.1 rfl,
   (validation_before_network Experiment.zero [] [] [] ⟨200, "", some "1"⟩
      ⟨200, "", none⟩ ⟨200, ""⟩).2.2 rfl⟩

/-- C3: with a non-empty Name, the create request body carries the wire
name namespace-slash-name, the input artifact location, and the input tags
with the reserved namespace tag upserted to the resolved namespace; the
namespace resolves to "default" without options and to the value of a
non-empty InNamespace option. -/
theorem createExperiment_request (exp : Experiment) (opts : List CreateOption)
    (cresp : CreateResponse) (gresp : GetResponse) (h : exp.Name ≠ "") :
    (CreateExperiment exp opts cresp gresp).1 =
      some ⟨(resolveCreateOptions opts).Namespace ++ "/" ++ exp.Name,
            exp.ArtifactLocation,
            Tags.Set exp.Tags "metadata.namespace"
              (resolveCreateOptions opts).Namespace⟩ ∧
    resolveCreateOptions [] = ⟨"default"⟩ ∧
    (∀ n, n ≠ "" → resolveCreateOptions [CreateOption.InNamespace n] = ⟨n⟩) := by
  refine ⟨?_, by decide, fun n hn => ?_⟩
  · by_cases hs : cresp.status = 200
    · cases hid : cresp.experimentID <;>
        simp [CreateExperiment, h, hs, hid, createRequestBody]
    · simp [CreateExperiment, h, hs, createRequestBody]
  · simp [resolveCreateOptions, CreateOption.ApplyToCreate, hn]

/-- C3 witness: the request body evaluated on a concrete experiment with an
explicit namespace option. -/
theorem createExperiment_request_witness :
    (CreateExperiment ⟨"", "exp1", "s3://b", 0, 0, "", []⟩
        [CreateOption.InNamespace "team"] ⟨200, "", some "5"⟩ ⟨200, "", none⟩).1 =
      some ⟨(resolveCreateOptions [CreateOption.InNamespace "team"]).Namespace
              ++ "/" ++ "exp1",
            "s3://b",
            Tags.Set [] "metadata.namespace"
              (resolveCreateOptions [CreateOption.InNamespace "team"]).Namespace⟩ :=
  (createExperiment_request ⟨"", "exp1", "s3://b", 0, 0, "", []⟩
    [CreateOption.InNamespace "team"] ⟨200, "", some "5"⟩ ⟨200, "", none⟩
    (by decide)).1

/-- C4: on a 200 create response whose body decodes to an identifier,
CreateExperiment writes the identifier into the caller ExperimentID and
behaves as the create request followed by a full GetExperiment with the
same resolved namespace, applied to the caller experiment as it then
stands — including the in-place tag upsert the request construction
performed through the shared slice. -/
theorem createExperiment_then_get (exp : Experiment) (opts : List CreateOption)
    (cresp : CreateResponse) (gresp : GetResponse) (id : String)
    (hname : exp.Name ≠ "") (hs : cresp.status = 200)
    (hid : cresp.experimentID = some id) :
    CreateExperiment exp opts cresp gresp =
      (some (createRequestBody exp (resolveCreateOptions opts).Namespace),
       GetExperiment
         { callerTagsAfterUpsert exp (resolveCreateOptions opts).Namespace with
             ExperimentID := id }
         [GetOption.InNamespace (resolveCreateOptions opts).Namespace] gresp) := by
  simp [CreateExperiment, hname, hs, hid]

/-- C4 witness: the create-then-get decomposition evaluated on concrete
responses, on a caller that already carries the reserved tag, so the
follow-up get (failing with 500) starts from the caller experiment with
the written ID and the in-place upserted tag. -/
theorem createExperiment_then_get_witness :
    CreateExperiment ⟨"", "e", "", 0, 0, "", [⟨"metadata.namespace", "team"⟩]⟩ []
        ⟨200, "", some "42"⟩ ⟨500, "oops", none⟩ =
      (some (createRequestBody ⟨"", "e", "", 0, 0, "", [⟨"metadata.namespace", "team"⟩]⟩
               (resolveCreateOptions []).Namespace),
       GetExperiment
         { callerTagsAfterUpsert ⟨"", "e", "", 0, 0, "", [⟨"metadata.namespace", "team"⟩]⟩
             (resolveCreateOptions []).Namespace with
             ExperimentID := "42" }
         [GetOption.InNamespace (resolveCreateOptions []).Namespace]
         ⟨500, "oops", none⟩) :=
  createExperiment_then_get ⟨"", "e", "", 0, 0, "", [⟨"metadata.namespace", "team"⟩]⟩ []
    ⟨200, "", some "42"⟩ ⟨500, "oops", none⟩ "42" (by decide) rfl rfl

/-- C5: on a 200 get response, the result experiment copies every field of
the decoded experiment, except that the Name has the prefix
namespace-slash stripped when the decoded tags carry a non-empty reserved
namespace tag; the namespace used is read from the result itself, and the
caller-supplied options have no effect on the outcome. -/
theorem getExperiment_spec (exp : Experiment) (opts : List GetOption)
    (gresp : GetResponse) (out : Experiment)
    (h : exp.ExperimentID ≠ "") (hs : gresp.status = 200)
    (hout : gresp.experiment = some out) :
    (GetExperiment exp opts gresp).1 = some ⟨exp.ExperimentID⟩ ∧
    (GetExperiment exp opts gresp).2.1 = .ok () ∧
    ((GetExperiment exp opts gresp).2.2).ExperimentID = out.ExperimentID ∧
    ((GetExperiment exp opts gresp).2.2).ArtifactLocation = out.ArtifactLocation ∧
    ((GetExperiment exp opts gresp).2.2).CreationTime = out.CreationTime ∧
    ((GetExperiment exp opts gresp).2.2).LastUpdatedTime = out.LastUpdatedTime ∧
    ((GetExperiment exp opts gresp).2.2).LifecycleStage = out.LifecycleStage ∧
    ((GetExperiment exp opts gresp).2.2).Tags = out.Tags ∧
    ((GetExperiment exp opts gresp).2.2).Name =
      (if Tags.Get out.Tags "metadata.namespace" = "" then out.Name
       else trimPre out.Name (Tags.Get out.Tags "metadata.namespace" ++ "/")) ∧
    (∀ opts2, GetExperiment exp opts2 gresp = GetExperiment exp opts gresp) := by
  have hlast : ∀ opts2, GetExperiment exp opts2 gresp = GetExperiment exp opts gresp :=
    fun _ => rfl
  by_cases hn : Tags.Get out.Tags "metadata.namespace" = "" <;>
    refine ⟨?_, ?_, ?_, ?_, ?_, ?_, ?_, ?_, ?_, hlast⟩ <;>
    simp [GetExperiment, h, hs, hout, deepCopyVal_id, hn]

/-- C5 witness: a concrete get round trip in which the server name carries
the namespace of the reserved tag in the response. -/
theorem getExperiment_spec_witness :
    ((GetExperiment ⟨"9", "x", "", 0, 0, "", []⟩ []
        ⟨200, "",
         some ⟨"9", "team/x", "loc", 5, 6, "active",
               [⟨"metadata.namespace", "team"⟩]⟩⟩).2.2).Name =
      (if Tags.Get ([⟨"metadata.namespace", "team"⟩] : List Tag)
            "metadata.namespace" = ""
       then "team/x"
       else trimPre "team/x"
         (Tags.Get ([⟨"metadata.namespace", "team"⟩] : List Tag)
            "metadata.namespace" ++ "/")) :=
  (getExperiment_spec ⟨"9", "x", "", 0, 0, "", []⟩ []
    ⟨200, "",
     some ⟨"9", "team/x", "loc", 5, 6, "active", [⟨"metadata.namespace", "team"⟩]⟩⟩
    ⟨"9", "team/x", "loc", 5, 6, "active", [⟨"metadata.namespace", "team"⟩]⟩
    (by decide) rfl rfl).2.2.2.2.2.2.2.2.1

/-- C10: the InNamespace option is inert on the delete path: its
ApplyToDelete leaves the options unchanged, inserting it anywhere in the
option list changes neither the issued request nor the result nor the final
experiment, and the delete request consists of the experiment id alone. -/
theorem delete_ignores_namespace :
    (∀ (o : DeleteOptions) (n : String),
      DeleteOption.ApplyToDelete (DeleteOption.InNamespace n) o = o) ∧
    (∀ (exp : Experiment) (opts1 opts2 : List DeleteOption) (n : String)
        (resp : DeleteResponse),
      DeleteExperiment exp (opts1 ++ DeleteOption.InNamespace n :: opts2) resp =
        DeleteExperiment exp (opts1 ++ opts2) resp) ∧
    (∀ (exp : Experiment) (opts : List DeleteOption) (resp : DeleteResponse),
      (DeleteExperiment exp opts resp).1 = none ∨
      (DeleteExperiment exp opts resp).1 = some ⟨exp.ExperimentID⟩) := by
  refine ⟨fun o n => rfl, ?_, ?_⟩
  · intro exp opts1 opts2 n resp
    apply deleteExperiment_resolve_congr
    simp [resolveDeleteOptions, List.foldl_append, DeleteOption.ApplyToDelete]
  · intro exp opts resp
    by_cases hid : exp.ExperimentID = ""
    · left
      simp [DeleteExperiment, hid]
    · right
      simp only [DeleteExperiment, hid]
      split_ifs <;> simp_all
